import Mathlib

/-!
Verification of the two numeric scripts in this repository:
`Basic Concepts/crossentropy.py` and `Basic Concepts/softmax.py`.

The scripts are numpy programs over 1-dimensional float arrays.  We embed
them shallowly over `List ℝ`:

* `softmax` mirrors `softmax.py`: exponentiate every element, sum the
  exponentials, and divide each exponential by the sum (the python loop
  appending `i/sumExpl` for `i` in `expl` is exactly a `List.map`).
* `cross_entropy` mirrors `crossentropy.py`, including numpy's
  1-dimensional broadcasting rules for the elementwise products and the
  elementwise sum: two 1-d arrays combine elementwise when their lengths
  match, a length-1 array is stretched to the other operand's length, and
  any other length combination raises a `ValueError`.  The embedding
  therefore returns `Option ℝ`, with `none` for the broadcast error.
* For the claims about IEEE non-finite propagation (log of 0) we use a
  second embedding `cross_entropyF` over an extended value type `Fl`
  (finite real, +inf, -inf, NaN) whose operations follow IEEE-754 and
  numpy semantics (`np.log 0 = -inf`, `np.log x = NaN` for `x < 0`,
  `0 * inf = NaN`, `inf - inf = NaN`, NaN propagates).
-/

/-- numpy broadcasting of a binary elementwise operation on two
1-dimensional arrays: equal lengths combine pointwise, a length-1 operand
is stretched to the other's length, anything else is an error (`none`). -/
noncomputable def npBinop (f : ℝ → ℝ → ℝ) (a b : List ℝ) : Option (List ℝ) :=
  if a.length = b.length then some (List.zipWith f a b)
  else if a.length = 1 then some (b.map (fun y => f (a.headD 0) y))
  else if b.length = 1 then some (a.map (fun x => f x (b.headD 0)))
  else none

/-- `cross_entropy` from `crossentropy.py`:
`-np.sum(Y * np.log(P) + (1 - Y) * np.log(1 - P))`.
`np.log`, `1 - Y` and `1 - P` are elementwise maps; the two `*` and the
`+` broadcast; `np.sum` folds the resulting array; the result is negated. -/
noncomputable def cross_entropy (Y P : List ℝ) : Option ℝ := do
  let t1 ← npBinop (fun x y => x * y) Y (P.map Real.log)
  let t2 ← npBinop (fun x y => x * y) (Y.map (fun y => 1 - y))
      (P.map (fun p => Real.log (1 - p)))
  let s ← npBinop (fun x y => x + y) t1 t2
  return -s.sum

/-- `softmax` from `softmax.py`: `expl = np.exp(L)`, `sumExpl =
np.sum(expl)`, then the loop appends `i / sumExpl` for each `i` in
`expl`, which is a map over `expl`. -/
noncomputable def softmax (L : List ℝ) : List ℝ :=
  let expl := L.map Real.exp
  let sumExpl := expl.sum
  expl.map (fun i => i / sumExpl)

/-- Driver data of `crossentropy.py`: `listy = [1,0,1,1]`. -/
noncomputable def listy : List ℝ := [1, 0, 1, 1]

/-- Driver data of `crossentropy.py`: `listp = [0.4,0.6,0.1,0.5]`. -/
noncomputable def listp : List ℝ := [0.4, 0.6, 0.1, 0.5]

/-- `cross_entropy_answer = cross_entropy(listy, listp)` from
`crossentropy.py`. -/
noncomputable def cross_entropy_answer : Option ℝ := cross_entropy listy listp

/-- Driver data of `softmax.py`: `list1 = [5,6,7,8]`. -/
noncomputable def list1 : List ℝ := [5, 6, 7, 8]

/-- `ans = softmax(list1)` from `softmax.py`. -/
noncomputable def ans : List ℝ := softmax list1

/-- Reference definition of the cross-entropy contract, written exactly as
the specification states it:
`- Σ_{i=0}^{n-1} [ Y[i] * ln(P[i]) + (1 - Y[i]) * ln(1 - P[i]) ]`. -/
noncomputable def cross_entropy_ref (Y P : List ℝ) : ℝ :=
  -(∑ i ∈ Finset.range Y.length,
      (Y.getD i 0 * Real.log (P.getD i 0) +
        (1 - Y.getD i 0) * Real.log (1 - P.getD i 0)))

/-- Reference definition of the softmax contract, written exactly as the
specification states it: a sequence of length `n` whose `i`-th entry is
`exp(L[i]) / Σ_j exp(L[j])`. -/
noncomputable def softmax_ref (L : List ℝ) : List ℝ :=
  (List.range L.length).map
    (fun i => Real.exp (L.getD i 0) /
      ∑ j ∈ Finset.range L.length, Real.exp (L.getD j 0))

/- ### Helper lemmas about list sums and indexing -/

theorem sum_map_eq_range_sum (f : ℝ → ℝ) :
    ∀ l : List ℝ, (l.map f).sum = ∑ i ∈ Finset.range l.length, f (l.getD i 0)
  | [] => by simp
  | x :: xs => by
    rw [List.map_cons, List.sum_cons, sum_map_eq_range_sum f xs,
      List.length_cons, Finset.sum_range_succ']
    simp [add_comm]

theorem sum_zipWith_eq_range_sum (f : ℝ → ℝ → ℝ) :
    ∀ a b : List ℝ, a.length = b.length →
      (List.zipWith f a b).sum =
        ∑ i ∈ Finset.range a.length, f (a.getD i 0) (b.getD i 0)
  | [], [], _ => by simp
  | [], _ :: _, h => by simp at h
  | _ :: _, [], h => by simp at h
  | x :: xs, y :: ys, h => by
    have h' : xs.length = ys.length := by simpa using h
    rw [List.zipWith_cons_cons, List.sum_cons, sum_zipWith_eq_range_sum f xs ys h',
      List.length_cons, Finset.sum_range_succ']
    simp [add_comm]

theorem map_eq_range_map (f : ℝ → ℝ) :
    ∀ l : List ℝ, l.map f = (List.range l.length).map (fun i => f (l.getD i 0))
  | [] => by simp
  | x :: xs => by
    rw [List.map_cons, List.length_cons, List.range_succ_eq_map, List.map_cons,
      map_eq_range_map f xs, List.map_map]
    simp [Function.comp]

theorem sum_map_div (l : List ℝ) (c : ℝ) :
    (l.map (fun x => x / c)).sum = l.sum / c := by
  induction l with
  | nil => simp
  | cons x xs ih => simp [ih, add_div]

theorem zipWith_add_of_zipWith (f g : ℝ → ℝ → ℝ) :
    ∀ a b : List ℝ,
      List.zipWith (fun x y => x + y) (List.zipWith f a b) (List.zipWith g a b) =
        List.zipWith (fun x y => f x y + g x y) a b
  | [], _ => by simp
  | _ :: _, [] => by simp
  | x :: xs, y :: ys => by
    simp [zipWith_add_of_zipWith f g xs ys]

/-- With equal lengths, broadcasting never fires and `cross_entropy`
computes the negated sum of the zipped terms. -/
theorem cross_entropy_eq_of_length_eq (Y P : List ℝ) (h : Y.length = P.length) :
    cross_entropy Y P =
      some (-(List.zipWith
        (fun y p => y * Real.log p + (1 - y) * Real.log (1 - p)) Y P).sum) := by
  unfold cross_entropy npBinop
  have h1 : Y.length = (P.map Real.log).length := by simpa using h
  have h2 : (Y.map (fun y => 1 - y)).length =
      (P.map (fun p => Real.log (1 - p))).length := by simpa using h
  rw [if_pos h1]
  simp only [Option.bind_eq_bind, Option.some_bind]
  rw [if_pos h2]
  simp only [Option.some_bind]
  have h3 : (List.zipWith (fun x y => x * y) Y (P.map Real.log)).length =
      (List.zipWith (fun x y => x * y) (Y.map (fun y => 1 - y))
        (P.map (fun p => Real.log (1 - p)))).length := by
    simp [h]
  rw [if_pos h3]
  simp only [Option.some_bind]
  congr 2
  rw [List.zipWith_map_right, List.zipWith_map_right, List.zipWith_map_left,
    zipWith_add_of_zipWith]

/- ### C1: cross_entropy matches the reference formula -/

/-- C1: for equal-length sequences `Y` and `P` with every `P[i]` in the
open interval `(0,1)`, `cross_entropy` returns exactly the reference value
`- Σ_i [ Y[i] * ln(P[i]) + (1 - Y[i]) * ln(1 - P[i]) ]`. -/
theorem cross_entropy_matches_ref (Y P : List ℝ) (hlen : Y.length = P.length)
    (hP : ∀ p ∈ P, 0 < p ∧ p < 1) :
    cross_entropy Y P = some (cross_entropy_ref Y P) := by
  rw [cross_entropy_eq_of_length_eq Y P hlen, cross_entropy_ref,
    sum_zipWith_eq_range_sum _ Y P hlen]

/-- Witness for C1 at `Y = [1,0]`, `P = [0.5,0.5]`. -/
theorem cross_entropy_matches_ref_witness :
    ([1, 0] : List ℝ).length = ([0.5, 0.5] : List ℝ).length ∧
      (∀ p ∈ ([0.5, 0.5] : List ℝ), 0 < p ∧ p < 1) ∧
      cross_entropy [1, 0] [0.5, 0.5] = some (cross_entropy_ref [1, 0] [0.5, 0.5]) :=
  ⟨by simp, by norm_num,
    cross_entropy_matches_ref [1, 0] [0.5, 0.5] (by simp) (by norm_num)⟩

/- ### C2: softmax matches the reference formula -/

/-- C2: for every non-empty sequence `L`, `softmax L` is the sequence of
length `L.length` whose `i`-th element is `exp(L[i]) / Σ_j exp(L[j])`. -/
theorem softmax_matches_ref (L : List ℝ) (h : L ≠ []) :
    softmax L = softmax_ref L := by
  simp only [softmax, softmax_ref]
  rw [List.map_map, map_eq_range_map]
  congr 1
  funext i
  simp [Function.comp, sum_map_eq_range_sum Real.exp L]

/-- Witness for C2 at `L = [0]`. -/
theorem softmax_matches_ref_witness :
    ([0] : List ℝ) ≠ [] ∧ softmax [0] = softmax_ref [0] :=
  ⟨by simp, softmax_matches_ref [0] (by simp)⟩

/- ### C3: softmax outputs are positive and sum to 1 -/

/-- C3: for every non-empty sequence `L`, every element of `softmax L` is
strictly positive and the elements of `softmax L` sum to exactly `1` (the
idealised statement of the floating-point tolerance claim). -/
theorem softmax_pos_sum_one (L : List ℝ) (h : L ≠ []) :
    (∀ x ∈ softmax L, 0 < x) ∧ (softmax L).sum = 1 := by
  have hpos : ∀ x ∈ L.map Real.exp, 0 < x := by
    intro x hx
    rcases List.mem_map.mp hx with ⟨y, _, rfl⟩
    exact Real.exp_pos y
  have hne : L.map Real.exp ≠ [] := by simpa using h
  have hS : 0 < (L.map Real.exp).sum := List.sum_pos _ hpos hne
  constructor
  · intro x hx
    simp only [softmax] at hx
    rcases List.mem_map.mp hx with ⟨y, hy, rfl⟩
    exact div_pos (hpos y hy) hS
  · simp only [softmax]
    rw [sum_map_div, div_self (ne_of_gt hS)]

/-- Witness for C3 at `L = [1, 2]`. -/
theorem softmax_pos_sum_one_witness :
    ([1, 2] : List ℝ) ≠ [] ∧
      ((∀ x ∈ softmax [1, 2], 0 < x) ∧ (softmax [1, 2]).sum = 1) :=
  ⟨by simp, softmax_pos_sum_one [1, 2] (by simp)⟩

/- ### C4: cross-entropy is non-negative on {0,1} labels -/

theorem term_nonpos (y p : ℝ) (hy : y = 0 ∨ y = 1) (hp : 0 < p ∧ p < 1) :
    y * Real.log p + (1 - y) * Real.log (1 - p) ≤ 0 := by
  obtain ⟨hp0, hp1⟩ := hp
  have h1 : Real.log p ≤ 0 := Real.log_nonpos hp0.le hp1.le
  have h2 : Real.log (1 - p) ≤ 0 := Real.log_nonpos (by linarith) (by linarith)
  rcases hy with rfl | rfl <;> simp <;> linarith

theorem zip_sum_nonpos :
    ∀ Y P : List ℝ, (∀ y ∈ Y, y = 0 ∨ y = 1) → (∀ p ∈ P, 0 < p ∧ p < 1) →
      (List.zipWith
        (fun y p => y * Real.log p + (1 - y) * Real.log (1 - p)) Y P).sum ≤ 0
  | [], _, _, _ => by simp
  | _ :: _, [], _, _ => by simp
  | y :: ys, p :: ps, hY, hP => by
    rw [List.zipWith_cons_cons, List.sum_cons]
    have ht := term_nonpos y p (hY y (by simp)) (hP p (by simp))
    have hrest := zip_sum_nonpos ys ps
      (fun a ha => hY a (by simp [ha])) (fun a ha => hP a (by simp [ha]))
    linarith

/-- C4: for `Y` with entries in `{0,1}` and equal-length `P` with entries
in `(0,1)`, `cross_entropy Y P` succeeds and its value is non-negative. -/
theorem cross_entropy_nonneg (Y P : List ℝ) (hlen : Y.length = P.length)
    (hY : ∀ y ∈ Y, y = 0 ∨ y = 1) (hP : ∀ p ∈ P, 0 < p ∧ p < 1) :
    ∃ r, cross_entropy Y P = some r ∧ 0 ≤ r := by
  refine ⟨_, cross_entropy_eq_of_length_eq Y P hlen, ?_⟩
  rw [neg_nonneg]
  exact zip_sum_nonpos Y P hY hP

/-- Witness for C4 at `Y = [1,0]`, `P = [0.5,0.5]`. -/
theorem cross_entropy_nonneg_witness :
    ([1, 0] : List ℝ).length = ([0.5, 0.5] : List ℝ).length ∧
      (∀ y ∈ ([1, 0] : List ℝ), y = 0 ∨ y = 1) ∧
      (∀ p ∈ ([0.5, 0.5] : List ℝ), 0 < p ∧ p < 1) ∧
      ∃ r, cross_entropy [1, 0] [0.5, 0.5] = some r ∧ 0 ≤ r :=
  ⟨by simp, by norm_num, by norm_num,
    cross_entropy_nonneg [1, 0] [0.5, 0.5] (by simp) (by norm_num) (by norm_num)⟩

/- ### C5: the concrete cross-entropy value of the driver -/

/-- C5: the driver value `cross_entropy_answer = cross_entropy(listy, listp)`
equals `-[ln(0.4) + ln(1-0.6) + ln(0.1) + ln(0.5)]` exactly (whose decimal
expansion is `4.8283137373…`). -/
theorem cross_entropy_answer_value :
    cross_entropy_answer =
      some (-(Real.log 0.4 + Real.log (1 - 0.6) + Real.log 0.1 + Real.log 0.5)) := by
  rw [cross_entropy_answer,
    cross_entropy_eq_of_length_eq listy listp (by simp [listy, listp])]
  simp only [listy, listp, List.zipWith_cons_cons, List.zipWith_nil_left,
    List.sum_cons, List.sum_nil, Option.some.injEq]
  norm_num
  ring

/- ### C6: the concrete softmax values of the driver -/

/-- C6: the driver value `ans = softmax(list1)` has four elements which
are within `10^-6` of `0.0320586`, `0.0871443`, `0.2368828` and
`0.6439142` respectively. -/
theorem ans_approx :
    ans.length = 4 ∧
      |ans.getD 0 0 - 0.0320586| < 0.000001 ∧
      |ans.getD 1 0 - 0.0871443| < 0.000001 ∧
      |ans.getD 2 0 - 0.2368828| < 0.000001 ∧
      |ans.getD 3 0 - 0.6439142| < 0.000001 := by
  set e := Real.exp 1 with hedef
  have he1 : (2.7182818283 : ℝ) < e := Real.exp_one_gt_d9
  have he2 : e < 2.7182818286 := Real.exp_one_lt_d9
  have he0 : (0 : ℝ) < e := Real.exp_pos 1
  have hp5 : Real.exp 5 = e ^ 5 := by rw [hedef, ← Real.exp_nat_mul]; norm_num
  have hp6 : Real.exp 6 = e ^ 6 := by rw [hedef, ← Real.exp_nat_mul]; norm_num
  have hp7 : Real.exp 7 = e ^ 7 := by rw [hedef, ← Real.exp_nat_mul]; norm_num
  have hp8 : Real.exp 8 = e ^ 8 := by rw [hedef, ← Real.exp_nat_mul]; norm_num
  have hsq_lo : (7.38905609 : ℝ) < e ^ 2 := by
    nlinarith [mul_self_nonneg (e - 2.7182818283)]
  have hsq_hi : e ^ 2 < 7.3890561 := by
    nlinarith [mul_pos (sub_pos.mpr he1) (sub_pos.mpr he2)]
  have hcube_lo : (20.0855368 : ℝ) < e ^ 3 := by
    nlinarith [mul_pos (sub_pos.mpr hsq_lo) (sub_pos.mpr he1)]
  have hcube_hi : e ^ 3 < 20.0855370 := by
    nlinarith [mul_pos (sub_pos.mpr hsq_hi) he0]
  have hD0 : (0 : ℝ) < 1 + e + e ^ 2 + e ^ 3 := by positivity
  have h5ne : e ^ 5 ≠ 0 := by positivity
  have key : ∀ x : ℝ, x / (e ^ 5 + (e ^ 6 + (e ^ 7 + e ^ 8))) =
      x / e ^ 5 / (1 + e + e ^ 2 + e ^ 3) := by
    intro x
    rw [show e ^ 5 + (e ^ 6 + (e ^ 7 + e ^ 8)) =
      e ^ 5 * (1 + e + e ^ 2 + e ^ 3) by ring, ← div_div]
  have r0 : e ^ 5 / e ^ 5 = 1 := div_self h5ne
  have r1 : e ^ 6 / e ^ 5 = e := by
    rw [show e ^ 6 = e ^ 5 * e by ring]; exact mul_div_cancel_left₀ e h5ne
  have r2 : e ^ 7 / e ^ 5 = e ^ 2 := by
    rw [show e ^ 7 = e ^ 5 * e ^ 2 by ring]; exact mul_div_cancel_left₀ _ h5ne
  have r3 : e ^ 8 / e ^ 5 = e ^ 3 := by
    rw [show e ^ 8 = e ^ 5 * e ^ 3 by ring]; exact mul_div_cancel_left₀ _ h5ne
  have b0lo : (0.0320585 : ℝ) < 1 / (1 + e + e ^ 2 + e ^ 3) := by
    rw [lt_div_iff₀ hD0]; linarith
  have b0hi : 1 / (1 + e + e ^ 2 + e ^ 3) < 0.0320587 := by
    rw [div_lt_iff₀ hD0]; linarith
  have b1lo : (0.0871442 : ℝ) < e / (1 + e + e ^ 2 + e ^ 3) := by
    rw [lt_div_iff₀ hD0]; linarith
  have b1hi : e / (1 + e + e ^ 2 + e ^ 3) < 0.0871444 := by
    rw [div_lt_iff₀ hD0]; linarith
  have b2lo : (0.2368827 : ℝ) < e ^ 2 / (1 + e + e ^ 2 + e ^ 3) := by
    rw [lt_div_iff₀ hD0]; linarith
  have b2hi : e ^ 2 / (1 + e + e ^ 2 + e ^ 3) < 0.2368829 := by
    rw [div_lt_iff₀ hD0]; linarith
  have b3lo : (0.6439141 : ℝ) < e ^ 3 / (1 + e + e ^ 2 + e ^ 3) := by
    rw [lt_div_iff₀ hD0]; linarith
  have b3hi : e ^ 3 / (1 + e + e ^ 2 + e ^ 3) < 0.6439143 := by
    rw [div_lt_iff₀ hD0]; linarith
  refine ⟨by simp [ans, softmax, list1], ?_, ?_, ?_, ?_⟩
  · have h0 : ans.getD 0 0 = e ^ 5 / (e ^ 5 + (e ^ 6 + (e ^ 7 + e ^ 8))) := by
      simp [ans, softmax, list1, hp5, hp6, hp7, hp8]
    rw [h0, key, r0, abs_lt]
    constructor <;> linarith
  · have h1 : ans.getD 1 0 = e ^ 6 / (e ^ 5 + (e ^ 6 + (e ^ 7 + e ^ 8))) := by
      simp [ans, softmax, list1, hp5, hp6, hp7, hp8]
    rw [h1, key, r1, abs_lt]
    constructor <;> linarith
  · have h2 : ans.getD 2 0 = e ^ 7 / (e ^ 5 + (e ^ 6 + (e ^ 7 + e ^ 8))) := by
      simp [ans, softmax, list1, hp5, hp6, hp7, hp8]
    rw [h2, key, r2, abs_lt]
    constructor <;> linarith
  · have h3 : ans.getD 3 0 = e ^ 8 / (e ^ 5 + (e ^ 6 + (e ^ 7 + e ^ 8))) := by
      simp [ans, softmax, list1, hp5, hp6, hp7, hp8]
    rw [h3, key, r3, abs_lt]
    constructor <;> linarith

/- ### Extended values: IEEE-754 / numpy semantics for inf and NaN -/

/-- An IEEE-754-style extended value: a finite real, `+inf`, `-inf`, or
NaN.  `np.float64` arithmetic on the non-finite values follows these
rules. -/
inductive Fl
  | finite (x : ℝ)
  | posInf
  | negInf
  | nan

/-- `np.log` on extended values: `log 0 = -inf` (with a warning, not an
error), `log x = NaN` for negative `x`, `log (+inf) = +inf`, and `log` of
`-inf` or NaN is NaN. -/
noncomputable def Fl.log : Fl → Fl
  | .finite x =>
      if x < 0 then .nan else if x = 0 then .negInf else .finite (Real.log x)
  | .posInf => .posInf
  | .negInf => .nan
  | .nan => .nan

/-- IEEE multiplication: `0 * ±inf = NaN`, otherwise infinities keep the
product's sign; NaN propagates. -/
noncomputable def Fl.mul : Fl → Fl → Fl
  | .nan, _ => .nan
  | _, .nan => .nan
  | .finite x, .finite y => .finite (x * y)
  | .finite x, .posInf => if 0 < x then .posInf else if x < 0 then .negInf else .nan
  | .finite x, .negInf => if 0 < x then .negInf else if x < 0 then .posInf else .nan
  | .posInf, .finite y => if 0 < y then .posInf else if y < 0 then .negInf else .nan
  | .negInf, .finite y => if 0 < y then .negInf else if y < 0 then .posInf else .nan
  | .posInf, .posInf => .posInf
  | .posInf, .negInf => .negInf
  | .negInf, .posInf => .negInf
  | .negInf, .negInf => .posInf

/-- IEEE addition: `+inf + -inf = NaN`, otherwise an infinity absorbs;
NaN propagates. -/
noncomputable def Fl.add : Fl → Fl → Fl
  | .nan, _ => .nan
  | _, .nan => .nan
  | .finite x, .finite y => .finite (x + y)
  | .finite _, .posInf => .posInf
  | .finite _, .negInf => .negInf
  | .posInf, .finite _ => .posInf
  | .negInf, .finite _ => .negInf
  | .posInf, .posInf => .posInf
  | .posInf, .negInf => .nan
  | .negInf, .posInf => .nan
  | .negInf, .negInf => .negInf

/-- IEEE subtraction: `inf - inf = NaN`, otherwise infinities dominate;
NaN propagates. -/
noncomputable def Fl.sub : Fl → Fl → Fl
  | .nan, _ => .nan
  | _, .nan => .nan
  | .finite x, .finite y => .finite (x - y)
  | .finite _, .posInf => .negInf
  | .finite _, .negInf => .posInf
  | .posInf, .finite _ => .posInf
  | .negInf, .finite _ => .negInf
  | .posInf, .posInf => .nan
  | .posInf, .negInf => .posInf
  | .negInf, .posInf => .negInf
  | .negInf, .negInf => .nan

/-- IEEE negation. -/
noncomputable def Fl.neg : Fl → Fl
  | .finite x => .finite (-x)
  | .posInf => .negInf
  | .negInf => .posInf
  | .nan => .nan

/-- `np.sum` on extended values: fold addition over the array starting
from `0.0`. -/
noncomputable def Fl.sum (l : List Fl) : Fl := l.foldl Fl.add (Fl.finite 0)

/-- An extended value is finite when it is neither an infinity nor NaN. -/
def Fl.isFinite : Fl → Prop
  | .finite _ => True
  | _ => False

/-- `cross_entropy` from `crossentropy.py` evaluated in extended-value
(IEEE) arithmetic, for equal-length inputs:
`-np.sum(Y * np.log(P) + (1 - Y) * np.log(1 - P))`. -/
noncomputable def cross_entropyF (Y P : List Fl) : Fl :=
  Fl.neg (Fl.sum (List.zipWith
    (fun y p => Fl.add (Fl.mul y (Fl.log p))
      (Fl.mul (Fl.sub (Fl.finite 1) y) (Fl.log (Fl.sub (Fl.finite 1) p)))) Y P))

theorem Fl.add_isFinite (a b : Fl) :
    (Fl.add a b).isFinite → a.isFinite ∧ b.isFinite := by
  cases a <;> cases b <;> simp [Fl.add, Fl.isFinite]

theorem Fl.foldl_add_isFinite :
    ∀ (l : List Fl) (acc : Fl), (l.foldl Fl.add acc).isFinite →
      acc.isFinite ∧ ∀ a ∈ l, a.isFinite
  | [], acc, h => ⟨h, by simp⟩
  | x :: xs, acc, h => by
    rw [List.foldl_cons] at h
    obtain ⟨hacc, hmem⟩ := Fl.foldl_add_isFinite xs (Fl.add acc x) h
    obtain ⟨h1, h2⟩ := Fl.add_isFinite acc x hacc
    refine ⟨h1, ?_⟩
    intro a ha
    rcases List.mem_cons.mp ha with rfl | ha'
    · exact h2
    · exact hmem a ha'

theorem Fl.mul_negInf_not_finite (a : Fl) : ¬ (Fl.mul a Fl.negInf).isFinite := by
  cases a with
  | finite x =>
    simp only [Fl.mul]
    split_ifs <;> simp [Fl.isFinite]
  | posInf => simp [Fl.mul, Fl.isFinite]
  | negInf => simp [Fl.mul, Fl.isFinite]
  | nan => simp [Fl.mul, Fl.isFinite]

theorem Fl.neg_isFinite (a : Fl) : (Fl.neg a).isFinite ↔ a.isFinite := by
  cases a <;> simp [Fl.neg, Fl.isFinite]

theorem Fl.log_finite_zero : Fl.log (Fl.finite 0) = Fl.negInf := by
  simp [Fl.log]

theorem zipWith_getD {α β γ : Type} (f : α → β → γ) (da : α) (db : β) (dc : γ) :
    ∀ (a : List α) (b : List β) (i : ℕ), i < a.length → i < b.length →
      (List.zipWith f a b).getD i dc = f (a.getD i da) (b.getD i db)
  | [], _, i, ha, _ => by simp at ha
  | _ :: _, [], i, _, hb => by simp at hb
  | x :: xs, y :: ys, 0, _, _ => by simp
  | x :: xs, y :: ys, i + 1, ha, hb => by
    simp only [List.zipWith_cons_cons, List.getD_cons_succ]
    exact zipWith_getD f da db dc xs ys i (by simpa using ha) (by simpa using hb)

/- ### C7: exact 0 or 1 probabilities propagate as non-finite values -/

/-- C7: in IEEE arithmetic, if some `P[i]` is exactly `0` or exactly `1`
then `cross_entropy Y P` evaluates to a value (no exception is raised)
and that value is non-finite (an infinity or NaN): the `-inf` from
`log 0` propagates through the products, the sum and the negation. -/
theorem cross_entropyF_not_finite (Y P : List Fl) (hlen : Y.length = P.length)
    (hP : ∃ i, i < P.length ∧
      (P.getD i Fl.nan = Fl.finite 0 ∨ P.getD i Fl.nan = Fl.finite 1)) :
    ¬ (cross_entropyF Y P).isFinite := by
  obtain ⟨i, hi, hcase⟩ := hP
  intro hfin
  rw [cross_entropyF, Fl.neg_isFinite, Fl.sum] at hfin
  set zl := List.zipWith
    (fun y p => Fl.add (Fl.mul y (Fl.log p))
      (Fl.mul (Fl.sub (Fl.finite 1) y)
        (Fl.log (Fl.sub (Fl.finite 1) p)))) Y P with hzl
  have hall := (Fl.foldl_add_isFinite zl (Fl.finite 0) hfin).2
  have hilen : i < zl.length := by
    rw [hzl, List.length_zipWith]
    omega
  have hmem : zl.getD i Fl.nan ∈ zl := by
    rw [List.getD_eq_getElem zl Fl.nan hilen]
    exact List.getElem_mem hilen
  have hterm := hall _ hmem
  rw [hzl, zipWith_getD _ Fl.nan Fl.nan Fl.nan Y P i (by omega) (by omega)]
    at hterm
  rcases hcase with hp | hp <;> rw [hp] at hterm
  · rw [Fl.log_finite_zero] at hterm
    exact Fl.mul_negInf_not_finite _ (Fl.add_isFinite _ _ hterm).1
  · have hsub : Fl.sub (Fl.finite 1) (Fl.finite 1) = Fl.finite 0 := by
      simp [Fl.sub]
    rw [hsub, Fl.log_finite_zero] at hterm
    exact Fl.mul_negInf_not_finite _ (Fl.add_isFinite _ _ hterm).2

/-- Witness for C7 at `Y = [1]`, `P = [0]`. -/
theorem cross_entropyF_not_finite_witness :
    [Fl.finite 1].length = [Fl.finite 0].length ∧
      (∃ i, i < [Fl.finite 0].length ∧
        ([Fl.finite 0].getD i Fl.nan = Fl.finite 0 ∨
          [Fl.finite 0].getD i Fl.nan = Fl.finite 1)) ∧
      ¬ (cross_entropyF [Fl.finite 1] [Fl.finite 0]).isFinite :=
  ⟨rfl, ⟨0, by simp, Or.inl rfl⟩,
    cross_entropyF_not_finite [Fl.finite 1] [Fl.finite 0] rfl
      ⟨0, by simp, Or.inl rfl⟩⟩

/- ### C8: mismatched lengths -/

/-- C8 counterexample: with `Y = [1,1]` (length 2) and `P = [0.5]`
(length 1) the call neither fails nor truncates to the shorter length:
numpy broadcasting stretches `P`, giving `-2·ln(0.5)`, whereas truncation
to the shorter length (the call on `[1]` and `[0.5]`) gives `-ln(0.5)`,
a different value. -/
theorem cross_entropy_broadcast_counterexample :
    cross_entropy [1, 1] [(0.5 : ℝ)] = some (-(2 * Real.log 0.5)) ∧
      cross_entropy [1] [(0.5 : ℝ)] = some (-(Real.log 0.5)) ∧
      -(2 * Real.log 0.5) ≠ -(Real.log 0.5) := by
  have hlog : Real.log 0.5 < 0 := Real.log_neg (by norm_num) (by norm_num)
  refine ⟨?_, ?_, by intro h; rw [neg_inj] at h; linarith⟩
  · simp only [cross_entropy, npBinop]
    norm_num
    ring
  · simp only [cross_entropy, npBinop]
    norm_num

/-- C8 amended: for mismatched lengths, if neither operand has length 1
the call fails with a broadcast (dimension-mismatch) error; if one
operand has length 1, its single element is broadcast across the other
operand's length — no failure and no truncation occurs. -/
theorem cross_entropy_mismatch (Y P : List ℝ) (hne : Y.length ≠ P.length) :
    (Y.length ≠ 1 → P.length ≠ 1 → cross_entropy Y P = none) ∧
      (P.length = 1 → cross_entropy Y P =
        some (-(Y.map (fun y => y * Real.log (P.headD 0) +
          (1 - y) * Real.log (1 - P.headD 0))).sum)) ∧
      (Y.length = 1 → cross_entropy Y P =
        some (-(P.map (fun p => Y.headD 0 * Real.log p +
          (1 - Y.headD 0) * Real.log (1 - p))).sum)) := by
  refine ⟨fun hY1 hP1 => ?_, fun hP1 => ?_, fun hY1 => ?_⟩
  · simp only [cross_entropy, npBinop]
    rw [if_neg (by simpa using hne), if_neg hY1, if_neg (by simpa using hP1)]
    rfl
  · obtain ⟨p, rfl⟩ := List.length_eq_one.mp hP1
    have hY1 : Y.length ≠ 1 := by simpa [hP1] using hne
    simp only [cross_entropy, npBinop]
    rw [if_neg (by simpa using hne), if_neg hY1,
      if_pos (by simp), if_neg (by simpa using hne), if_neg (by simpa using hY1),
      if_pos (by simp)]
    simp only [List.map_map, List.headD_cons, List.length_map,
      Option.bind_eq_bind, Option.some_bind]
    rw [if_pos (by simp)]
    simp only [Option.some_bind, Option.some.injEq, neg_inj]
    rw [List.zipWith_map_left, List.zipWith_map_right, List.zipWith_same]
    simp [Function.comp]
  · obtain ⟨y, rfl⟩ := List.length_eq_one.mp hY1
    have hP1 : P.length ≠ 1 := by simpa [hY1] using fun h => hne h.symm
    simp only [cross_entropy, npBinop]
    rw [if_neg (by simpa using hne), if_pos (by simp),
      if_neg (by simpa using hne), if_pos (by simp)]
    simp only [List.map_map, List.headD_cons, List.length_map,
      Option.bind_eq_bind, Option.some_bind]
    rw [if_pos (by simp)]
    simp only [Option.some_bind, Option.some.injEq, neg_inj]
    rw [List.zipWith_map_left, List.zipWith_map_right, List.zipWith_same]
    simp [Function.comp]

/-- Witness for C8's amended statement at `Y = [1,1]`,
`P = [0.7, 0.2, 0.3]`. -/
theorem cross_entropy_mismatch_witness :
    ([1, 1] : List ℝ).length ≠ ([0.7, 0.2, 0.3] : List ℝ).length ∧
      ((([1, 1] : List ℝ).length ≠ 1 → ([0.7, 0.2, 0.3] : List ℝ).length ≠ 1 →
          cross_entropy [1, 1] [0.7, 0.2, 0.3] = none) ∧
        (([0.7, 0.2, 0.3] : List ℝ).length = 1 →
          cross_entropy [1, 1] [0.7, 0.2, 0.3] =
            some (-(([1, 1] : List ℝ).map
              (fun y => y * Real.log (([0.7, 0.2, 0.3] : List ℝ).headD 0) +
                (1 - y) *
                  Real.log (1 - ([0.7, 0.2, 0.3] : List ℝ).headD 0))).sum)) ∧
        (([1, 1] : List ℝ).length = 1 →
          cross_entropy [1, 1] [0.7, 0.2, 0.3] =
            some (-(([0.7, 0.2, 0.3] : List ℝ).map
              (fun p => ([1, 1] : List ℝ).headD 0 * Real.log p +
                (1 - ([1, 1] : List ℝ).headD 0) * Real.log (1 - p))).sum))) :=
  ⟨by simp, cross_entropy_mismatch [1, 1] [0.7, 0.2, 0.3] (by simp)⟩

/- ### C10: softmax on the empty sequence -/

/-- C10: `softmax` applied to the empty sequence returns the empty
sequence: the loop body never runs, so no division is performed and no
error can arise; the zero sum of exponentials is never used. -/
theorem softmax_nil : softmax ([] : List ℝ) = [] := rfl

/- ### C9: determinism of both functions -/

/-- C9: both `cross_entropy` and `softmax` are pure functions of their
arguments: two invocations on identical input sequences return identical
results. -/
theorem cross_entropy_softmax_deterministic
    (Y₁ Y₂ P₁ P₂ L₁ L₂ : List ℝ) (hY : Y₁ = Y₂) (hP : P₁ = P₂) (hL : L₁ = L₂) :
    cross_entropy Y₁ P₁ = cross_entropy Y₂ P₂ ∧ softmax L₁ = softmax L₂ := by
  subst hY; subst hP; subst hL; exact ⟨rfl, rfl⟩

/-- Witness for C9 at concrete inputs. -/
theorem cross_entropy_softmax_deterministic_witness :
    ([1] : List ℝ) = [1] ∧ ([0.5] : List ℝ) = [0.5] ∧ ([2] : List ℝ) = [2] ∧
      (cross_entropy [1] [0.5] = cross_entropy [1] [0.5] ∧
        softmax [2] = softmax [2]) :=
  ⟨rfl, rfl, rfl,
    cross_entropy_softmax_deterministic [1] [1] [0.5] [0.5] [2] [2] rfl rfl rfl⟩
